import Mathlib

/-!
Verification of the wdmmg backend transaction store.

The Rust source keeps, per account, a deduplicated map of current transactions
(`HashMap<String, HashMap<TransactionId, CurrentTransaction>>`) and an append-only
list of historical transactions (`HashMap<String, Vec<HistoricalTransaction>>`).
This development shallow-embeds the data model of `src/backend/src/types.rs`, the
store mutations of `src/backend/src/store.rs` and the handler pipelines of
`src/backend/src/handlers/*.rs`, and proves the specified properties about them.

Hash maps are embedded as association lists with first-match lookup and
replace-in-place insertion; `DateTime<Utc>` is embedded as an integer instant
(the code only compares, orders and tests equality of timestamps).
-/

namespace Wdmmg

/-- TransactionId from types.rs: (timestamp, amount_cents, currency, payee),
compared by exact equality on all four fields. -/
structure TransactionId where
  timestamp : Int
  amount_cents : Int
  currency : String
  payee : String
deriving DecidableEq

/-- CurrentTransaction from types.rs. -/
structure CurrentTransaction where
  account_id : String
  id : TransactionId
deriving DecidableEq

/-- HistoricalTransaction from types.rs. -/
structure HistoricalTransaction where
  account_id : String
  id : TransactionId
  memo : Option String
deriving DecidableEq

/-- The HTTP status carried by an ApiError in error.rs. -/
inductive ErrStatus where
  | conflict
  | badRequest
  | notFound
deriving DecidableEq

/-- ApiError from error.rs: a message plus a status code. -/
structure ApiError where
  message : String
  status : ErrStatus
deriving DecidableEq

/-- BulkImportResponse from types.rs. -/
structure BulkImportResponse where
  imported : Nat
  duplicates : Nat
  errors : List String
deriving DecidableEq

/-- First-match lookup in an association list (HashMap::get). -/
def lookupA {α β : Type} [DecidableEq α] : List (α × β) → α → Option β
  | [], _ => none
  | (k, v) :: t, a => if k = a then some v else lookupA t a

/-- Key membership in an association list (HashMap::contains_key). -/
def containsA {α β : Type} [DecidableEq α] (l : List (α × β)) (a : α) : Bool :=
  l.any (fun p => p.1 = a)

/-- Insertion into an association list: replace the value in place if the key is
present, append otherwise (HashMap::insert). -/
def insertA {α β : Type} [DecidableEq α] : List (α × β) → α → β → List (α × β)
  | [], a, b => [(a, b)]
  | (k, v) :: t, a, b => if k = a then (a, b) :: t else (k, v) :: insertA t a b

/-- HashMap::entry(..).or_insert_with: materialise a default entry for a key
that is absent, leave the map unchanged otherwise. -/
def entryOr {α β : Type} [DecidableEq α] (l : List (α × β)) (a : α) (d : β) :
    List (α × β) :=
  if containsA l a then l else l ++ [(a, d)]

/-- The two collections owned by TransactionStore in types.rs / store.rs:
account_id -> (TransactionId -> CurrentTransaction) and
account_id -> Vec of HistoricalTransaction. -/
structure TransactionStore where
  current : List (String × List (TransactionId × CurrentTransaction))
  all : List (String × List HistoricalTransaction)
deriving DecidableEq

/-- TransactionStore::new(). -/
def TransactionStore.new : TransactionStore := ⟨[], []⟩

/-- The bucket of current transactions of one account (empty if absent). -/
def currentBucket (s : TransactionStore) (a : String) :
    List (TransactionId × CurrentTransaction) :=
  (lookupA s.current a).getD []

/-- The list of historical transactions of one account (empty if absent). -/
def allBucket (s : TransactionStore) (a : String) : List HistoricalTransaction :=
  (lookupA s.all a).getD []

def conflictError : ApiError := ⟨"Transaction already exists", .conflict⟩

def accountNotFoundError : ApiError := ⟨"Account not found", .notFound⟩

def transactionNotFoundError : ApiError := ⟨"Transaction not found", .notFound⟩

/-- create_transaction from store.rs lines 88-140 (the handler in
create_transaction.rs runs the identical sequence), given the already-derived
TransactionId. It materialises the current bucket of the account, fails with Conflict
if the id is already present, and otherwise inserts into `current` and appends a
memo-less record to `all`. The returned store is the state after the call,
including the bucket materialised by `entry().or_insert_with` on the early
Conflict return. -/
def create_transaction (s : TransactionStore) (account_id : String)
    (transaction_id : TransactionId) :
    Except ApiError CurrentTransaction × TransactionStore :=
  let current_transaction : CurrentTransaction := ⟨account_id, transaction_id⟩
  let historical_transaction : HistoricalTransaction := ⟨account_id, transaction_id, none⟩
  let current1 := entryOr s.current account_id []
  let bucket := (lookupA current1 account_id).getD []
  if containsA bucket transaction_id then
    (.error conflictError, { s with current := current1 })
  else
    let current2 := insertA current1 account_id
      (insertA bucket transaction_id current_transaction)
    let all1 := entryOr s.all account_id []
    let abucket := (lookupA all1 account_id).getD []
    let all2 := insertA all1 account_id (abucket ++ [historical_transaction])
    (.ok current_transaction, { current := current2, all := all2 })

/-- One parsed CSV row as passed to the bulk-import mutation. -/
abbrev ImportRecord := TransactionId × CurrentTransaction × HistoricalTransaction

/-- process_csv_transaction from utils.rs, applied to a row whose timestamp and
amount already parsed: the derived id together with the current and historical
records (memo unset). -/
def process_csv_transaction (account_id : String) (id : TransactionId) : ImportRecord :=
  (id, ⟨account_id, id⟩, ⟨account_id, id, none⟩)

/-- The min/max-date fold of bulk_import (store.rs lines 155-163,
bulk_import.rs lines 41-49). -/
def dateRange (l : List ImportRecord) : Option Int × Option Int :=
  l.foldl
    (fun acc r =>
      (some (acc.1.elim r.1.timestamp (fun m => min m r.1.timestamp)),
       some (acc.2.elim r.1.timestamp (fun m => max m r.1.timestamp))))
    (none, none)

/-- The shared mutation body of bulk import (store.rs lines 155-195 and
bulk_import.rs lines 41-80): compute the date range of the batch, evict current
entries of the account inside the range, insert each new record (counting every
insertion), and append every historical record. Returns the `imported` count and
the new store. -/
def bulkImportCore (s : TransactionStore) (account_id : String)
    (new_transactions : List ImportRecord) : Nat × TransactionStore :=
  let (min_date, max_date) := dateRange new_transactions
  let current1 := entryOr s.current account_id []
  let bucket := (lookupA current1 account_id).getD []
  let bucket1 :=
    match min_date, max_date with
    | some mn, some mx =>
        bucket.filter (fun p => decide (p.1.timestamp < mn) || decide (mx < p.1.timestamp))
    | _, _ => bucket
  let step := fun (acc : List (TransactionId × CurrentTransaction) × Nat)
      (r : ImportRecord) => (insertA acc.1 r.1 r.2.1, acc.2 + 1)
  let folded := new_transactions.foldl step (bucket1, 0)
  let current2 := insertA current1 account_id folded.1
  let all1 := entryOr s.all account_id []
  let abucket := (lookupA all1 account_id).getD []
  let all2 := insertA all1 account_id (abucket ++ new_transactions.map (fun r => r.2.2))
  (folded.2, { current := current2, all := all2 })

/-- bulk_import_transactions from store.rs lines 143-207: BadRequest on an empty
batch, otherwise the core mutation; the store-level response reports no errors. -/
def bulk_import_transactions (s : TransactionStore) (account_id : String)
    (new_transactions : List ImportRecord) :
    Except ApiError BulkImportResponse × TransactionStore :=
  if new_transactions.isEmpty then
    (.error ⟨"No valid transactions to import", .badRequest⟩, s)
  else
    let r := bulkImportCore s account_id new_transactions
    (.ok ⟨r.1, 0, []⟩, r.2)

/-- The outcome of parsing one CSV row: a derived TransactionId, or the per-row
error string (already tagged with its row number by the handler). -/
abbrev ParseResult := Except String TransactionId

/-- The successfully-parsed ids of a row list, in order. -/
def successesOf (results : List ParseResult) : List TransactionId :=
  results.filterMap (fun r => r.toOption)

/-- The per-row error strings of a row list, in order. -/
def errorsOf (results : List ParseResult) : List String :=
  results.filterMap (fun r => match r with | .error e => some e | .ok _ => none)

/-- bulk_import_handler from bulk_import.rs lines 9-95, starting after CSV row
decoding: partition rows into successes and failures, reject the batch with
BadRequest when nothing parsed but something failed, and otherwise run the
mutation body and report the count, a constant 0 duplicates, and the errors. -/
def bulk_import_handler (s : TransactionStore) (account_id : String)
    (results : List ParseResult) :
    Except ApiError BulkImportResponse × TransactionStore :=
  let new_transactions := (successesOf results).map (process_csv_transaction account_id)
  let errors := errorsOf results
  if new_transactions.isEmpty && !errors.isEmpty then
    (.error ⟨"CSV parsing failed with " ++ toString errors.length ++ " errors",
      .badRequest⟩, s)
  else
    let r := bulkImportCore s account_id new_transactions
    (.ok ⟨r.1, 0, errors⟩, r.2)

/-- The iter_mut().find(..) followed by the memo assignment in
update_transaction_memo: replace the memo of the first entry whose id matches,
or return none when no entry matches. -/
def updateFirstMemo :
    List HistoricalTransaction → TransactionId → Option String →
      Option (List HistoricalTransaction)
  | [], _, _ => none
  | h :: t, id, m =>
    if h.id = id then some ({ h with memo := m } :: t)
    else (updateFirstMemo t id m).map (fun t2 => h :: t2)

/-- update_transaction_memo from store.rs lines 210-241 (update_memo.rs runs the
identical sequence): NotFound when the account has no historical bucket,
NotFound when no entry of the bucket matches the id, otherwise overwrite the
memo of the first matching entry. `current` is never touched. -/
def update_transaction_memo (s : TransactionStore) (account_id : String)
    (transaction_id : TransactionId) (new_memo : Option String) :
    Except ApiError Unit × TransactionStore :=
  match lookupA s.all account_id with
  | none => (.error accountNotFoundError, s)
  | some l =>
    match updateFirstMemo l transaction_id new_memo with
    | none => (.error transactionNotFoundError, s)
    | some l2 => (.ok (), { s with all := insertA s.all account_id l2 })

/-- get_current_transactions from store.rs: all current entries of all accounts. -/
def get_current_transactions (s : TransactionStore) : List CurrentTransaction :=
  s.current.foldr (fun p acc => p.2.map (fun q => q.2) ++ acc) []

/-- get_all_transactions from store.rs: all historical entries of all accounts,
in per-account insertion order. -/
def get_all_transactions (s : TransactionStore) : List HistoricalTransaction :=
  s.all.foldr (fun p acc => p.2 ++ acc) []

def wId : TransactionId := ⟨0, 100, "USD", "shop"⟩

def wStore1 : TransactionStore :=
  ⟨[("acct", [(wId, ⟨"acct", wId⟩)])], [("acct", [⟨"acct", wId, none⟩])]⟩

def c3Store : TransactionStore := ⟨[("acct", [])], [("acct", [])]⟩

def c9Store : TransactionStore := ⟨[("acct", [])], [("acct", [⟨"acct", wId, none⟩])]⟩

def c7Store : TransactionStore :=
  ⟨[("acct", [(wId, ⟨"acct", wId⟩)])], [("acct", [⟨"acct", wId, none⟩])]⟩

def c7Id2 : TransactionId := ⟨5, 250, "USD", "other"⟩

def c10Store : TransactionStore :=
  ⟨[], [("acct", [⟨"acct", wId, none⟩, ⟨"acct", wId, some "old"⟩])]⟩

/-- One mutation of the store, as performed by the three mutating operations on
arbitrary requests (create and memo-update on any id, bulk import on any row
outcome list). -/
inductive Step : TransactionStore → TransactionStore → Prop where
  | create (s : TransactionStore) (a : String) (id : TransactionId) :
      Step s (create_transaction s a id).2
  | bulk (s : TransactionStore) (a : String) (results : List ParseResult) :
      Step s (bulk_import_handler s a results).2
  | memo (s : TransactionStore) (a : String) (id : TransactionId)
      (m : Option String) : Step s (update_transaction_memo s a id m).2

/-- The store states reachable from the empty store by create, bulk_import and
update_memo operations. -/
inductive Reach : TransactionStore → Prop where
  | empty : Reach TransactionStore.new
  | step {s s2 : TransactionStore} : Reach s → Step s s2 → Reach s2

/-- Every TransactionId keyed in the current bucket of an account occurs among
the ids of the history of that account. -/
def keysInAll (s : TransactionStore) : Prop :=
  ∀ a id, id ∈ (currentBucket s a).map Prod.fst →
    id ∈ (allBucket s a).map (fun h => h.id)

def c4Dup : TransactionStore :=
  (bulk_import_handler TransactionStore.new "acct" [.ok wId, .ok wId]).2

def log2fuel : Nat → Nat → Nat
  | 0, _ => 0
  | fuel + 1, n => if n ≤ 1 then 0 else log2fuel fuel (n / 2) + 1

/-- Floor of the base-2 logarithm of a positive natural number. -/
def natLog2 (n : Nat) : Nat := log2fuel n n

def clog2fuel : Nat → Nat → Nat
  | 0, _ => 0
  | fuel + 1, n => if n ≤ 1 then 0 else clog2fuel fuel ((n + 1) / 2) + 1

/-- Ceiling of the base-2 logarithm of a positive natural number. -/
def natClog2 (n : Nat) : Nat := clog2fuel n n

/-- Round-to-nearest-even of the fraction a / b (b > 0), the rounding used by
IEEE-754 binary64 arithmetic and by decimal-to-double conversion. -/
def rneFrac (a b : Nat) : Nat :=
  let q := a / b
  let r := a % b
  if 2 * r < b then q
  else if b < 2 * r then q + 1
  else if q % 2 = 0 then q else q + 1

/-- An IEEE-754 binary64 value represented exactly as mantissa * 2 ^ exponent. -/
structure Dyadic where
  mantissa : Int
  exponent : Int
deriving DecidableEq

/-- Floor of log2 of the positive rational N / D. -/
def ilog2 (N D : Nat) : Int :=
  if D ≤ N then (natLog2 (N / D) : Int)
  else -(natClog2 ((D + N - 1) / N) : Int)

/-- The binary64 double nearest to the decimal number n / 10 ^ p (round to
nearest, ties to even), i.e. the f64 value the program holds after the request
decoder parses the decimal literal of an amount. -/
def doubleOfDec (n : Int) (p : Nat) : Dyadic :=
  if n = 0 then ⟨0, 0⟩
  else
    let N := n.natAbs
    let D := 10 ^ p
    let e := ilog2 N D
    let m :=
      if 0 ≤ 52 - e then rneFrac (N * 2 ^ (52 - e).toNat) D
      else rneFrac N (D * 2 ^ (e - 52).toNat)
    ⟨if n < 0 then -(m : Int) else (m : Int), e - 52⟩

/-- The binary64 product `amount * 100.0` (100.0 is exact, and the product is
rounded back to 53 bits, ties to even). -/
def mul100 (x : Dyadic) : Dyadic :=
  let m2 := x.mantissa.natAbs * 100
  if m2 = 0 then ⟨0, 0⟩
  else
    let L := natLog2 m2 + 1
    let m3 := if L ≤ 53 then m2 else rneFrac m2 (2 ^ (L - 53))
    let k3 := if L ≤ 53 then x.exponent else x.exponent + (L - 53 : Nat)
    ⟨if x.mantissa < 0 then -(m3 : Int) else (m3 : Int), k3⟩

/-- Division of naturals rounding to nearest with halves rounded up. -/
def halfAwayDiv (a b : Nat) : Nat := (2 * a + b) / (2 * b)

/-- Rust f64::round — the nearest integer, ties away from zero. -/
def f64roundD (x : Dyadic) : Int :=
  let m := x.mantissa.natAbs
  let v : Nat :=
    if 0 ≤ x.exponent then m * 2 ^ x.exponent.toNat
    else halfAwayDiv m (2 ^ (-x.exponent).toNat)
  if x.mantissa < 0 then -(v : Int) else (v : Int)

/-- The amount_cents derivation performed by the code at store.rs line 94,
create_transaction.rs line 12, utils.rs line 44 and update_memo.rs line 23:
`(amount * 100.0).round() as i64`, where `amount` is the f64 nearest to the
decimal amount n / 10 ^ p supplied by the caller. -/
def derive_amount_cents (n : Int) (p : Nat) : Int :=
  f64roundD (mul100 (doubleOfDec n p))

/-- Cents per the spec wording: the exact decimal amount n / 10 ^ p, times 100,
rounded to the nearest integer with ties away from zero. -/
def spec_round_cents (n : Int) (p : Nat) : Int :=
  let a := (100 * n).natAbs
  let b := 10 ^ p
  if n < 0 then -(halfAwayDiv a b : Int) else (halfAwayDiv a b : Int)

/-- The map-key serializer of serde_json: a JSON object key must serialize as a
string; TransactionId derives Serialize as a four-field struct, which the key
serializer rejects with this error. -/
def serializeTransactionIdKey (_id : TransactionId) : Except String String :=
  .error "key must be a string"

/-- Serialization of the current bucket of one account
(`HashMap<TransactionId, CurrentTransaction>`) by serde_json: each entry first
serializes its key. Only the keys are modelled, because on every nonempty
bucket the first key already aborts the serialization, before any value is
visited. -/
def serializeCurrentBucketKeys :
    List (TransactionId × CurrentTransaction) → Except String (List String)
  | [] => .ok []
  | (k, _) :: t =>
    match serializeTransactionIdKey k with
    | .error e => .error e
    | .ok s =>
      match serializeCurrentBucketKeys t with
      | .error e => .error e
      | .ok rest => .ok (s :: rest)

/-- Outcome of serde_json::to_string_pretty(&current) inside save_to_files
(store.rs lines 50-55): account keys are Strings and are accepted; every
TransactionId keys of every bucket must serialize to strings. -/
def serialize_current
    (current : List (String × List (TransactionId × CurrentTransaction))) :
    Except String Unit :=
  match current with
  | [] => .ok ()
  | (_, b) :: t =>
    match serializeCurrentBucketKeys b with
    | .error e => .error e
    | .ok _ => serialize_current t

section AssocLemmas

variable {α β : Type} [DecidableEq α]

theorem containsA_true_iff {l : List (α × β)} {a : α} :
    containsA l a = true ↔ ∃ p ∈ l, p.1 = a := by
  simp [containsA, List.any_eq_true]

theorem containsA_false_iff {l : List (α × β)} {a : α} :
    containsA l a = false ↔ ∀ p ∈ l, p.1 ≠ a := by
  simp [containsA, List.any_eq_false]

theorem lookupA_eq_none_iff {l : List (α × β)} {a : α} :
    lookupA l a = none ↔ ∀ p ∈ l, p.1 ≠ a := by
  induction l with
  | nil => simp [lookupA]
  | cons p t ih =>
    obtain ⟨k, v⟩ := p
    by_cases hk : k = a
    · subst hk
      simp [lookupA]
    · simp [lookupA, hk, ih]

theorem containsA_eq_isSome {l : List (α × β)} {a : α} :
    containsA l a = (lookupA l a).isSome := by
  induction l with
  | nil => simp [containsA, lookupA]
  | cons p t ih =>
    obtain ⟨k, v⟩ := p
    by_cases hk : k = a
    · subst hk
      simp [containsA, lookupA]
    · simp [containsA, lookupA, hk] at ih ⊢
      exact ih

theorem lookupA_insertA (l : List (α × β)) (a : α) (b : β) (k : α) :
    lookupA (insertA l a b) k = if a = k then some b else lookupA l k := by
  induction l with
  | nil => simp [insertA, lookupA]
  | cons p t ih =>
    obtain ⟨k0, v⟩ := p
    by_cases h0 : k0 = a
    · subst h0
      by_cases hk : k0 = k
      · subst hk
        simp [insertA, lookupA]
      · simp [insertA, lookupA, hk]
    · by_cases hk : k0 = k
      · subst hk
        have hak : ¬ a = k0 := fun h => h0 h.symm
        simp [insertA, lookupA, h0, hak]
      · simp [insertA, lookupA, h0, hk, ih]

theorem lookupA_append (l1 l2 : List (α × β)) (k : α) :
    lookupA (l1 ++ l2) k = ((lookupA l1 k).or (lookupA l2 k)) := by
  induction l1 with
  | nil => simp [lookupA]
  | cons p t ih =>
    obtain ⟨k0, v⟩ := p
    by_cases hk : k0 = k
    · simp [lookupA, hk]
    · simp [lookupA, hk, ih]

theorem lookupA_entryOr (l : List (α × β)) (a : α) (d : β) (k : α) :
    lookupA (entryOr l a d) k =
      if k = a then some ((lookupA l a).getD d) else lookupA l k := by
  unfold entryOr
  by_cases hc : containsA l a
  · have hsome : (lookupA l a).isSome := by rw [← containsA_eq_isSome, hc]
    obtain ⟨v, hv⟩ := Option.isSome_iff_exists.mp hsome
    by_cases hk : k = a
    · subst hk
      simp [hc, hv]
    · simp [hc, hk]
  · have hnone : lookupA l a = none := by
      have := containsA_eq_isSome (l := l) (a := a)
      rw [eq_false_of_ne_true hc] at this
      exact Option.not_isSome_iff_eq_none.mp (by rw [← this]; simp)
    by_cases hk : k = a
    · subst hk
      simp [hc, hnone, lookupA_append, lookupA]
    · have hak : ¬ a = k := fun h => hk h.symm
      simp [hc, hnone, lookupA_append, lookupA, hak, hk]

theorem entryOr_bucket (l : List (α × β)) (a : α) (d : β) :
    (lookupA (entryOr l a d) a).getD d = (lookupA l a).getD d := by
  rw [lookupA_entryOr]
  simp

theorem mem_keys_insertA {l : List (α × β)} {a k : α} {b : β}
    (h : k ∈ (insertA l a b).map Prod.fst) : k = a ∨ k ∈ l.map Prod.fst := by
  induction l with
  | nil => simpa [insertA] using h
  | cons p t ih =>
    obtain ⟨k0, v⟩ := p
    by_cases h0 : k0 = a
    · subst h0
      simp [insertA] at h
      rcases h with h | h
      · exact .inl h
      · exact .inr (by simp [h])
    · simp [insertA, h0] at h
      rcases h with h | ⟨x, hx⟩
      · exact .inr (by simp [h])
      · rcases ih (List.mem_map.mpr ⟨(k, x), hx, rfl⟩) with h2 | h2
        · exact .inl h2
        · exact .inr (by simp [h2])

theorem insertA_of_not_contains {l : List (α × β)} {a : α} (b : β)
    (h : containsA l a = false) : insertA l a b = l ++ [(a, b)] := by
  induction l with
  | nil => simp [insertA]
  | cons p t ih =>
    obtain ⟨k0, v⟩ := p
    simp [containsA] at h
    obtain ⟨h0, ht⟩ := h
    have h0 : k0 ≠ a := h0
    simp [insertA, h0, ih (containsA_false_iff.mpr (by simpa using ht))]

/-- Looking a key up after repeatedly inserting the records of a list: the value
of the last record with that key, or the original binding if there is none. -/
theorem lookupA_foldl_insertA {γ : Type} (f : γ → α) (g : γ → β) :
    ∀ (l : List γ) (b : List (α × β)) (k : α),
      lookupA (l.foldl (fun acc r => insertA acc (f r) (g r)) b) k =
        (((l.reverse.find? (fun r => decide (f r = k))).map g).or (lookupA b k)) := by
  intro l
  induction l with
  | nil => simp
  | cons r0 t ih =>
    intro b k
    simp only [List.foldl_cons, List.reverse_cons]
    rw [ih, List.find?_append, lookupA_insertA]
    by_cases hfind : (t.reverse.find? (fun r => decide (f r = k))).isSome
    · obtain ⟨r, hr⟩ := Option.isSome_iff_exists.mp hfind
      simp [hr]
    · have hnone := Option.not_isSome_iff_eq_none.mp hfind
      by_cases hk : f r0 = k
      · simp [hnone, List.find?, hk]
      · simp [hnone, List.find?, hk]

end AssocLemmas

/-- Specialisation of the fold-insert lookup lemma to import records. -/
theorem lookupA_foldl_insertRec (l : List ImportRecord)
    (b : List (TransactionId × CurrentTransaction)) (k : TransactionId) :
    lookupA (l.foldl (fun acc r => insertA acc r.1 r.2.1) b) k =
      (((l.reverse.find? (fun r => decide (r.1 = k))).map (fun r => r.2.1)).or
        (lookupA b k)) :=
  lookupA_foldl_insertA (fun r => r.1) (fun r => r.2.1) l b k

theorem filter_key_nil {α β : Type} [DecidableEq α] {l : List (α × β)} {k : α}
    (h : containsA l k = false) : l.filter (fun p => decide (p.1 = k)) = [] := by
  rw [List.filter_eq_nil_iff]
  intro p hp
  simpa using containsA_false_iff.mp h p hp

theorem dateRange_foldl (t : List ImportRecord) (mn mx : Int) :
    t.foldl
      (fun acc r =>
        (some (acc.1.elim r.1.timestamp (fun m => min m r.1.timestamp)),
         some (acc.2.elim r.1.timestamp (fun m => max m r.1.timestamp))))
      (some mn, some mx) =
      (some (t.foldl (fun m r => min m r.1.timestamp) mn),
       some (t.foldl (fun m r => max m r.1.timestamp) mx)) := by
  induction t generalizing mn mx with
  | nil => rfl
  | cons r t ih => simp only [List.foldl_cons, Option.elim_some, ih]

theorem dateRange_cons (r0 : ImportRecord) (t : List ImportRecord) :
    dateRange (r0 :: t) =
      (some (t.foldl (fun m r => min m r.1.timestamp) r0.1.timestamp),
       some (t.foldl (fun m r => max m r.1.timestamp) r0.1.timestamp)) := by
  unfold dateRange
  simp only [List.foldl_cons, Option.elim_none, dateRange_foldl]

theorem foldl_min_le_init (t : List ImportRecord) (a : Int) :
    t.foldl (fun m r => min m r.1.timestamp) a ≤ a := by
  induction t generalizing a with
  | nil => exact le_refl a
  | cons r t ih => exact le_trans (ih (min a r.1.timestamp)) (min_le_left _ _)

theorem foldl_min_le_mem {t : List ImportRecord} {r : ImportRecord} (hr : r ∈ t) (a : Int) :
    t.foldl (fun m q => min m q.1.timestamp) a ≤ r.1.timestamp := by
  induction t generalizing a with
  | nil => cases hr
  | cons r0 t ih =>
    rcases List.mem_cons.mp hr with h | h
    · subst h
      exact le_trans (foldl_min_le_init t _) (min_le_right _ _)
    · exact ih h _

theorem foldl_min_attained (t : List ImportRecord) (a : Int) :
    t.foldl (fun m r => min m r.1.timestamp) a = a ∨
      ∃ r ∈ t, t.foldl (fun m q => min m q.1.timestamp) a = r.1.timestamp := by
  induction t generalizing a with
  | nil => exact .inl rfl
  | cons r0 t ih =>
    rcases ih (min a r0.1.timestamp) with h | ⟨r, hr, h⟩
    · simp only [List.foldl_cons, h]
      rcases min_choice a r0.1.timestamp with h2 | h2
      · exact .inl h2
      · exact .inr ⟨r0, List.mem_cons_self r0 t, h2⟩
    · exact .inr ⟨r, List.mem_cons_of_mem r0 hr, h⟩

theorem le_foldl_max_init (t : List ImportRecord) (a : Int) :
    a ≤ t.foldl (fun m r => max m r.1.timestamp) a := by
  induction t generalizing a with
  | nil => exact le_refl a
  | cons r t ih => exact le_trans (le_max_left _ _) (ih (max a r.1.timestamp))

theorem mem_le_foldl_max {t : List ImportRecord} {r : ImportRecord} (hr : r ∈ t) (a : Int) :
    r.1.timestamp ≤ t.foldl (fun m q => max m q.1.timestamp) a := by
  induction t generalizing a with
  | nil => cases hr
  | cons r0 t ih =>
    rcases List.mem_cons.mp hr with h | h
    · subst h
      exact le_trans (le_max_right _ _) (le_foldl_max_init t _)
    · exact ih h _

theorem foldl_max_attained (t : List ImportRecord) (a : Int) :
    t.foldl (fun m r => max m r.1.timestamp) a = a ∨
      ∃ r ∈ t, t.foldl (fun m q => max m q.1.timestamp) a = r.1.timestamp := by
  induction t generalizing a with
  | nil => exact .inl rfl
  | cons r0 t ih =>
    rcases ih (max a r0.1.timestamp) with h | ⟨r, hr, h⟩
    · simp only [List.foldl_cons, h]
      rcases max_choice a r0.1.timestamp with h2 | h2
      · exact .inl h2
      · exact .inr ⟨r0, List.mem_cons_self r0 t, h2⟩
    · exact .inr ⟨r, List.mem_cons_of_mem r0 hr, h⟩

theorem foldl_step_split (l : List ImportRecord)
    (b : List (TransactionId × CurrentTransaction)) (n : Nat) :
    l.foldl (fun acc r => (insertA acc.1 r.1 r.2.1, acc.2 + 1)) (b, n) =
      (l.foldl (fun acc r => insertA acc r.1 r.2.1) b, n + l.length) := by
  induction l generalizing b n with
  | nil => simp
  | cons r t ih =>
    simp only [List.foldl_cons, ih, List.length_cons]
    congr 1
    omega

/-- Unfolding of the bulk-import mutation body once the date range is known. -/
theorem bulkImportCore_unfold (s : TransactionStore) (a : String)
    (l : List ImportRecord) (mn mx : Int)
    (hdr : dateRange l = (some mn, some mx)) :
    bulkImportCore s a l =
      (l.length,
       { current := insertA (entryOr s.current a []) a
           (l.foldl (fun acc r => insertA acc r.1 r.2.1)
             ((currentBucket s a).filter
               (fun p => decide (p.1.timestamp < mn) || decide (mx < p.1.timestamp)))),
         all := insertA (entryOr s.all a []) a
           (allBucket s a ++ l.map (fun r => r.2.2)) }) := by
  unfold bulkImportCore
  rw [hdr]
  simp only [foldl_step_split, Nat.zero_add, entryOr_bucket]
  rfl

theorem bulkImportCore_fst (s : TransactionStore) (a : String) (l : List ImportRecord) :
    (bulkImportCore s a l).1 = l.length := by
  unfold bulkImportCore
  rcases hdr : dateRange l with ⟨mnO, mxO⟩
  rcases mnO with _ | mn <;> rcases mxO with _ | mx <;>
    simp [foldl_step_split]

/-- The current bucket of the store produced by a successful create. -/
theorem create_success_unfold (s : TransactionStore) (a : String) (id : TransactionId)
    (h : containsA (currentBucket s a) id = false) :
    create_transaction s a id =
      (.ok ⟨a, id⟩,
        { current := insertA (entryOr s.current a [])
            a (currentBucket s a ++ [(id, ⟨a, id⟩)]),
          all := insertA (entryOr s.all a [])
            a (allBucket s a ++ [⟨a, id, none⟩]) }) := by
  unfold create_transaction
  have hb : (lookupA (entryOr s.current a []) a).getD [] = currentBucket s a :=
    entryOr_bucket s.current a []
  have hab : (lookupA (entryOr s.all a []) a).getD [] = allBucket s a :=
    entryOr_bucket s.all a []
  simp only [hb, hab, h, Bool.false_eq_true, if_false]
  rw [insertA_of_not_contains _ h]

/-- Claim C1: if a CurrentTransaction with the derived TransactionId already
exists in `current` for that account, create fails with Conflict and both the
current map and the all map are unchanged by the call. -/
theorem claim_C1_create_conflict_unchanged (s : TransactionStore) (a : String)
    (id : TransactionId) (bucket : List (TransactionId × CurrentTransaction))
    (hb : lookupA s.current a = some bucket) (hc : containsA bucket id = true) :
    create_transaction s a id = (.error conflictError, s) := by
  have hcontains : containsA s.current a = true := by
    rw [containsA_eq_isSome, hb]
    rfl
  unfold create_transaction
  simp only [entryOr, hcontains, if_true, hb, Option.getD_some, hc]

/-- Witness for claim C1 at a concrete one-transaction store. -/
theorem claim_C1_witness :
    create_transaction wStore1 "acct" wId = (.error conflictError, wStore1) :=
  claim_C1_create_conflict_unchanged wStore1 "acct" wId
    [(wId, ⟨"acct", wId⟩)] (by decide) (by decide)

/-- Claim C9 (amended): a successful create returns the new CurrentTransaction,
leaves exactly one entry matching the derived id in the current bucket of the
bucket, appends exactly one memo-less matching HistoricalTransaction to the
history of the account, and the total matching history count is exactly one whenever
the id did not occur in the history before the call. -/
theorem claim_C9_create_success (s : TransactionStore) (a : String) (id : TransactionId)
    (h : containsA (currentBucket s a) id = false) :
    (create_transaction s a id).1 = .ok ⟨a, id⟩ ∧
    ((currentBucket (create_transaction s a id).2 a).filter
        (fun p => decide (p.1 = id))).length = 1 ∧
    allBucket (create_transaction s a id).2 a = allBucket s a ++ [⟨a, id, none⟩] ∧
    (((allBucket s a).filter (fun h2 => decide (h2.id = id))).length = 0 →
      ((allBucket (create_transaction s a id).2 a).filter
          (fun h2 => decide (h2.id = id))).length = 1) := by
  rw [create_success_unfold s a id h]
  have hcb : currentBucket
      ({ current := insertA (entryOr s.current a []) a
            (currentBucket s a ++ [(id, ⟨a, id⟩)]),
         all := insertA (entryOr s.all a []) a
            (allBucket s a ++ [⟨a, id, none⟩]) } : TransactionStore) a =
      currentBucket s a ++ [(id, ⟨a, id⟩)] := by
    unfold currentBucket
    rw [lookupA_insertA]
    simp
  have hac : allBucket
      ({ current := insertA (entryOr s.current a []) a
            (currentBucket s a ++ [(id, ⟨a, id⟩)]),
         all := insertA (entryOr s.all a []) a
            (allBucket s a ++ [⟨a, id, none⟩]) } : TransactionStore) a =
      allBucket s a ++ [⟨a, id, none⟩] := by
    unfold allBucket
    rw [lookupA_insertA]
    simp
  refine ⟨rfl, ?_, ?_, ?_⟩
  · rw [hcb, List.filter_append, filter_key_nil h]
    simp
  · exact hac
  · intro h0
    have hnil : (allBucket s a).filter (fun h2 => decide (h2.id = id)) = [] :=
      List.length_eq_zero.mp h0
    rw [hac, List.filter_append, hnil]
    simp

/-- Witness for claim C9: create on the empty store. -/
theorem claim_C9_witness :
    (create_transaction TransactionStore.new "acct" wId).1 = .ok ⟨"acct", wId⟩ ∧
    ((currentBucket (create_transaction TransactionStore.new "acct" wId).2 "acct").filter
        (fun p => decide (p.1 = wId))).length = 1 ∧
    allBucket (create_transaction TransactionStore.new "acct" wId).2 "acct" =
      allBucket TransactionStore.new "acct" ++ [⟨"acct", wId, none⟩] ∧
    (((allBucket TransactionStore.new "acct").filter
        (fun h2 => decide (h2.id = wId))).length = 0 →
      ((allBucket (create_transaction TransactionStore.new "acct" wId).2 "acct").filter
          (fun h2 => decide (h2.id = wId))).length = 1) :=
  claim_C9_create_success TransactionStore.new "acct" wId (by decide)

theorem bulk_import_handler_of_ne (s : TransactionStore) (a : String)
    (results : List ParseResult) (hne : successesOf results ≠ []) :
    bulk_import_handler s a results =
      (.ok ⟨(bulkImportCore s a
          ((successesOf results).map (process_csv_transaction a))).1, 0,
          errorsOf results⟩,
       (bulkImportCore s a
          ((successesOf results).map (process_csv_transaction a))).2) := by
  obtain ⟨x, t, hxt⟩ := List.exists_cons_of_ne_nil hne
  unfold bulk_import_handler
  rw [hxt]
  simp only [List.map_cons, List.isEmpty_cons, Bool.false_and, Bool.false_eq_true,
    if_false]

/-- After a bulk import with at least one parsed record, the history of the account
is the old history followed by one memo-less record per parsed row. -/
theorem allBucket_bulk_handler (s : TransactionStore) (a : String)
    (results : List ParseResult) (hne : successesOf results ≠ []) :
    allBucket (bulk_import_handler s a results).2 a =
      allBucket s a ++ (successesOf results).map (fun id => ⟨a, id, none⟩) := by
  obtain ⟨id0, S', hS⟩ := List.exists_cons_of_ne_nil hne
  have hmapS : (successesOf results).map (process_csv_transaction a) =
      process_csv_transaction a id0 :: S'.map (process_csv_transaction a) := by
    rw [hS, List.map_cons]
  have hdr : dateRange ((successesOf results).map (process_csv_transaction a)) =
      (some ((S'.map (process_csv_transaction a)).foldl
          (fun m r => min m r.1.timestamp) id0.timestamp),
       some ((S'.map (process_csv_transaction a)).foldl
          (fun m r => max m r.1.timestamp) id0.timestamp)) := by
    rw [hmapS, dateRange_cons]
    rfl
  rw [bulk_import_handler_of_ne s a results hne,
    bulkImportCore_unfold s a _ _ _ hdr]
  unfold allBucket
  rw [lookupA_insertA]
  simp only [if_pos rfl, Option.getD_some, List.map_map]
  rfl

/-- Claim C2: a bulk import with at least one successfully-parsed record evicts
from the current bucket of the account every id whose timestamp lies in the
inclusive min/max range of the batch (unless re-imported), inserts every parsed
record keyed by its id (the last write in the batch winning), and appends every
parsed record as a memo-less HistoricalTransaction, leaving all prior history
in place as a prefix. -/
theorem claim_C2_bulk_import_range_replace (s : TransactionStore) (a : String)
    (results : List ParseResult) (hne : successesOf results ≠ []) :
    ∃ mn mx,
      dateRange ((successesOf results).map (process_csv_transaction a)) =
        (some mn, some mx) ∧
      (∀ id ∈ successesOf results, mn ≤ id.timestamp ∧ id.timestamp ≤ mx) ∧
      (∃ id ∈ successesOf results, id.timestamp = mn) ∧
      (∃ id ∈ successesOf results, id.timestamp = mx) ∧
      (∀ id : TransactionId, mn ≤ id.timestamp → id.timestamp ≤ mx →
        id ∉ successesOf results →
        lookupA (currentBucket (bulk_import_handler s a results).2 a) id = none) ∧
      (∀ id ∈ successesOf results,
        lookupA (currentBucket (bulk_import_handler s a results).2 a) id =
          some ⟨a, id⟩) ∧
      allBucket (bulk_import_handler s a results).2 a =
        allBucket s a ++ (successesOf results).map (fun id => ⟨a, id, none⟩) := by
  obtain ⟨id0, S', hS⟩ := List.exists_cons_of_ne_nil hne
  have hmapS : (successesOf results).map (process_csv_transaction a) =
      process_csv_transaction a id0 :: S'.map (process_csv_transaction a) := by
    rw [hS, List.map_cons]
  set T' := S'.map (process_csv_transaction a) with hT'
  have hdr : dateRange ((successesOf results).map (process_csv_transaction a)) =
      (some (T'.foldl (fun m r => min m r.1.timestamp) id0.timestamp),
       some (T'.foldl (fun m r => max m r.1.timestamp) id0.timestamp)) := by
    rw [hmapS, dateRange_cons]
    rfl
  set mn := T'.foldl (fun m r => min m r.1.timestamp) id0.timestamp with hmn
  set mx := T'.foldl (fun m r => max m r.1.timestamp) id0.timestamp with hmx
  have hmem : ∀ id ∈ successesOf results,
      id = id0 ∨ process_csv_transaction a id ∈ T' := by
    intro id hid
    rw [hS] at hid
    rcases List.mem_cons.mp hid with h | h
    · exact .inl h
    · exact .inr (List.mem_map_of_mem _ h)
  have hbounds : ∀ id ∈ successesOf results, mn ≤ id.timestamp ∧ id.timestamp ≤ mx := by
    intro id hid
    rcases hmem id hid with h | h
    · subst h
      exact ⟨foldl_min_le_init T' _, le_foldl_max_init T' _⟩
    · exact ⟨foldl_min_le_mem h _, mem_le_foldl_max h _⟩
  have hTmem : ∀ r ∈ T', ∃ id ∈ successesOf results, r = process_csv_transaction a id := by
    intro r hr
    obtain ⟨id, hid, hrid⟩ := List.mem_map.mp hr
    exact ⟨id, by rw [hS]; exact List.mem_cons_of_mem _ hid, hrid.symm⟩
  have hmn_mem : ∃ id ∈ successesOf results, id.timestamp = mn := by
    rcases foldl_min_attained T' id0.timestamp with h | ⟨r, hr, h⟩
    · exact ⟨id0, by rw [hS]; exact List.mem_cons_self _ _, h.symm⟩
    · obtain ⟨id, hid, hrid⟩ := hTmem r hr
      refine ⟨id, hid, ?_⟩
      rw [hmn, h, hrid]
      rfl
  have hmx_mem : ∃ id ∈ successesOf results, id.timestamp = mx := by
    rcases foldl_max_attained T' id0.timestamp with h | ⟨r, hr, h⟩
    · exact ⟨id0, by rw [hS]; exact List.mem_cons_self _ _, h.symm⟩
    · obtain ⟨id, hid, hrid⟩ := hTmem r hr
      refine ⟨id, hid, ?_⟩
      rw [hmx, h, hrid]
      rfl
  -- the post-call state
  rw [bulk_import_handler_of_ne s a results hne]
  rw [bulkImportCore_unfold s a _ mn mx hdr]
  set T := (successesOf results).map (process_csv_transaction a) with hT
  set bucket1 := (currentBucket s a).filter
    (fun p => decide (p.1.timestamp < mn) || decide (mx < p.1.timestamp)) with hb1
  set F := T.foldl (fun acc r => insertA acc r.1 r.2.1) bucket1 with hF
  have hcb : currentBucket
      ({ current := insertA (entryOr s.current a []) a F,
         all := insertA (entryOr s.all a []) a
           (allBucket s a ++ T.map (fun r => r.2.2)) } : TransactionStore) a = F := by
    unfold currentBucket
    rw [lookupA_insertA]
    simp
  have hab : allBucket
      ({ current := insertA (entryOr s.current a []) a F,
         all := insertA (entryOr s.all a []) a
           (allBucket s a ++ T.map (fun r => r.2.2)) } : TransactionStore) a =
      allBucket s a ++ T.map (fun r => r.2.2) := by
    unfold allBucket
    rw [lookupA_insertA]
    simp
  have hTall : ∀ r ∈ T, ∃ idr ∈ successesOf results,
      r = process_csv_transaction a idr := by
    intro r hr
    obtain ⟨idr, hid, hrid⟩ := List.mem_map.mp hr
    exact ⟨idr, hid, hrid.symm⟩
  refine ⟨mn, mx, hdr, hbounds, hmn_mem, hmx_mem, ?_, ?_, ?_⟩
  · -- eviction: in-range ids that are not re-imported are gone
    intro id hlo hhi hnotin
    rw [hcb, hF, lookupA_foldl_insertRec]
    have hfind : T.reverse.find? (fun r => decide (r.1 = id)) = none := by
      rw [List.find?_eq_none]
      intro r hr
      obtain ⟨idr, hidr, hrid⟩ := hTall r (List.mem_reverse.mp hr)
      subst hrid
      simp only [process_csv_transaction, decide_eq_true_eq]
      intro hcontra
      exact hnotin (hcontra ▸ hidr)
    rw [hfind]
    show lookupA bucket1 id = none
    rw [lookupA_eq_none_iff]
    intro p hp hpk
    have hpm := List.mem_filter.mp hp
    have hpred := hpm.2
    rw [hpk] at hpred
    rcases Bool.or_eq_true_iff.mp hpred with h | h
    · exact absurd (decide_eq_true_eq.mp h) (not_lt.mpr hlo)
    · exact absurd (decide_eq_true_eq.mp h) (not_lt.mpr hhi)
  · -- every parsed record ends up in the current bucket under its id
    intro id hid
    rw [hcb, hF, lookupA_foldl_insertRec]
    have hsome : (T.reverse.find? (fun r => decide (r.1 = id))).isSome := by
      rw [List.find?_isSome]
      refine ⟨process_csv_transaction a id,
        List.mem_reverse.mpr (List.mem_map_of_mem _ hid), ?_⟩
      simp [process_csv_transaction]
    obtain ⟨r, hr⟩ := Option.isSome_iff_exists.mp hsome
    have hrid : r.1 = id := by
      have := List.find?_some hr
      simpa using this
    obtain ⟨idr, hidr, hre⟩ := hTall r
      (List.mem_reverse.mp (List.mem_of_find?_eq_some hr))
    rw [hr]
    show some r.2.1 = some (⟨a, id⟩ : CurrentTransaction)
    rw [hre] at hrid ⊢
    simp only [process_csv_transaction] at hrid ⊢
    rw [hrid]
  · -- history is extended by exactly the batch, memo unset
    rw [hab, hT, List.map_map]
    rfl

/-- Witness for claim C2 at a concrete one-row import. -/
theorem claim_C2_witness :
    lookupA (currentBucket
      (bulk_import_handler TransactionStore.new "acct" [.ok wId]).2 "acct") wId =
      some ⟨"acct", wId⟩ := by
  obtain ⟨mn, mx, hdr, hbounds, hmn, hmx, hevict, hins, hall⟩ :=
    claim_C2_bulk_import_range_replace TransactionStore.new "acct" [.ok wId]
      (by decide)
  exact hins wId (by decide)

/-- Claim C3 (amended): a bulk import whose rows all fail to parse (zero
successes, at least one error) fails with BadRequest and leaves the store
untouched; any import with at least one success always mutates the store, so
among calls with at least one row, the all-rows-failed rejection is the only
path that mutates nothing. -/
theorem claim_C3_all_rows_failed (s : TransactionStore) (a : String)
    (results : List ParseResult) :
    (successesOf results = [] → errorsOf results ≠ [] →
      bulk_import_handler s a results =
        (.error ⟨"CSV parsing failed with " ++
            toString (errorsOf results).length ++ " errors", .badRequest⟩, s)) ∧
    (successesOf results ≠ [] → (bulk_import_handler s a results).2 ≠ s) ∧
    (results ≠ [] → (bulk_import_handler s a results).2 = s →
      successesOf results = [] ∧ errorsOf results ≠ []) := by
  have hmut : successesOf results ≠ [] → (bulk_import_handler s a results).2 ≠ s := by
    intro hne heq
    have hall := allBucket_bulk_handler s a results hne
    rw [heq] at hall
    have hlen := congrArg List.length hall
    rw [List.length_append, List.length_map] at hlen
    have : (successesOf results).length = 0 := by omega
    exact hne (List.length_eq_zero.mp this)
  refine ⟨?_, hmut, ?_⟩
  · intro hsucc herr
    unfold bulk_import_handler
    have hTnil : ((successesOf results).map (process_csv_transaction a)) = [] := by
      rw [hsucc, List.map_nil]
    rw [hTnil]
    obtain ⟨e, t, het⟩ := List.exists_cons_of_ne_nil herr
    rw [het]
    simp only [List.isEmpty_nil, List.isEmpty_cons, Bool.not_false, Bool.true_and,
      if_true]
  · intro hrows heq
    have hsucc : successesOf results = [] := by
      by_contra hne
      exact hmut hne heq
    refine ⟨hsucc, ?_⟩
    obtain ⟨r0, t, hrt⟩ := List.exists_cons_of_ne_nil hrows
    cases r0 with
    | ok id =>
      exfalso
      have hcons : successesOf results = id :: successesOf t := by
        rw [hrt]
        rfl
      rw [hcons] at hsucc
      exact List.cons_ne_nil id (successesOf t) hsucc
    | error e =>
      intro hcontra
      have : errorsOf (.error e :: t) = e :: errorsOf t := rfl
      rw [hrt, this] at hcontra
      exact List.cons_ne_nil e (errorsOf t) hcontra

/-- Witness for claim C3 at a concrete all-failed import and a concrete
mutating import. -/
theorem claim_C3_witness :
    bulk_import_handler TransactionStore.new "acct" [.error "Row 2: bad"] =
      (.error ⟨"CSV parsing failed with " ++
          toString (errorsOf [(.error "Row 2: bad" : ParseResult)]).length ++
          " errors", .badRequest⟩, TransactionStore.new) ∧
    (bulk_import_handler TransactionStore.new "acct" [.ok wId]).2 ≠
      TransactionStore.new :=
  ⟨(claim_C3_all_rows_failed TransactionStore.new "acct" [.error "Row 2: bad"]).1
      rfl (by decide),
   (claim_C3_all_rows_failed TransactionStore.new "acct" [.ok wId]).2.1 (by decide)⟩

/-- Counterexample to claim C3 as stated: an import whose row list is empty
(zero successes and zero errors) succeeds and also mutates nothing, so the
all-rows-failed rejection is not the only bulk-import path that leaves the
store unchanged. -/
theorem claim_C3_counterexample :
    (bulk_import_handler c3Store "acct" []).1 = .ok ⟨0, 0, []⟩ ∧
    (bulk_import_handler c3Store "acct" []).2 = c3Store ∧
    errorsOf ([] : List ParseResult) = [] := by
  refine ⟨rfl, rfl, rfl⟩

/-- Claim C6: a bulk import that is not rejected reports `imported` equal to
the number of parsed records inserted into current (one insertion per parsed
record, duplicates included), `duplicates` equal to 0 regardless of input, and
`errors` equal to exactly the per-row parse error strings. -/
theorem claim_C6_bulk_import_response (s : TransactionStore) (a : String)
    (results : List ParseResult)
    (h : successesOf results ≠ [] ∨ errorsOf results = []) :
    (bulk_import_handler s a results).1 =
      .ok ⟨(successesOf results).length, 0, errorsOf results⟩ := by
  have hcond : (((successesOf results).map (process_csv_transaction a)).isEmpty &&
      !(errorsOf results).isEmpty) = false := by
    rcases h with h | h
    · obtain ⟨x, t, hxt⟩ := List.exists_cons_of_ne_nil h
      rw [hxt]
      simp
    · rw [h]
      simp
  unfold bulk_import_handler
  simp only [hcond, Bool.false_eq_true, if_false]
  rw [bulkImportCore_fst, List.length_map]

/-- Witness for claim C6 at a concrete import with one good and one bad row. -/
theorem claim_C6_witness :
    (bulk_import_handler TransactionStore.new "acct"
      [.ok wId, .error "Row 3: bad"]).1 =
      .ok ⟨(successesOf [(.ok wId : ParseResult), .error "Row 3: bad"]).length, 0,
        errorsOf [(.ok wId : ParseResult), .error "Row 3: bad"]⟩ :=
  claim_C6_bulk_import_response TransactionStore.new "acct"
    [.ok wId, .error "Row 3: bad"] (.inl (by decide))

/-- Counterexample to claim C9 as stated: when the id already occurs in the
history of the account (here after an earlier bulk-import eviction), a successful
create leaves two matching HistoricalTransactions in `all`, not exactly one. -/
theorem claim_C9_counterexample :
    (create_transaction c9Store "acct" wId).1 = .ok ⟨"acct", wId⟩ ∧
    ((allBucket (create_transaction c9Store "acct" wId).2 "acct").filter
        (fun h2 => decide (h2.id = wId))).length = 2 := by
  constructor
  · rfl
  · rfl

theorem update_memo_of_no_account (s : TransactionStore) (a : String)
    (id : TransactionId) (m : Option String) (h : lookupA s.all a = none) :
    update_transaction_memo s a id m = (.error accountNotFoundError, s) := by
  unfold update_transaction_memo
  rw [h]

theorem update_memo_of_account (s : TransactionStore) (a : String)
    (id : TransactionId) (m : Option String) (l : List HistoricalTransaction)
    (hl : lookupA s.all a = some l) :
    update_transaction_memo s a id m =
      (match updateFirstMemo l id m with
       | none => (.error transactionNotFoundError, s)
       | some l2 => (.ok (), { s with all := insertA s.all a l2 })) := by
  unfold update_transaction_memo
  rw [hl]

theorem updateFirstMemo_eq_none_iff (l : List HistoricalTransaction)
    (id : TransactionId) (m : Option String) :
    updateFirstMemo l id m = none ↔ ∀ h ∈ l, h.id ≠ id := by
  induction l with
  | nil => simp [updateFirstMemo]
  | cons h t ih =>
    by_cases hh : h.id = id
    · simp [updateFirstMemo, hh]
    · simp [updateFirstMemo, hh, ih]

theorem updateFirstMemo_of_first (l : List HistoricalTransaction)
    (id : TransactionId) (m : Option String) (i : Nat) (hi : i < l.length)
    (hmatch : (l.get ⟨i, hi⟩).id = id)
    (hfirst : ∀ j, ∀ hj : j < i, (l.get ⟨j, lt_trans hj hi⟩).id ≠ id) :
    updateFirstMemo l id m = some (l.set i { l.get ⟨i, hi⟩ with memo := m }) := by
  induction l generalizing i with
  | nil => cases hi
  | cons h t ih =>
    cases i with
    | zero =>
      simp only [List.get] at hmatch
      simp [updateFirstMemo, hmatch, List.set]
    | succ i =>
      have hh : h.id ≠ id := hfirst 0 (Nat.succ_pos i)
      have hi2 : i < t.length := Nat.lt_of_succ_lt_succ hi
      have hm2 : (t.get ⟨i, hi2⟩).id = id := hmatch
      have hf2 : ∀ j, ∀ hj : j < i, (t.get ⟨j, lt_trans hj hi2⟩).id ≠ id :=
        fun j hj => hfirst (j + 1) (Nat.succ_lt_succ hj)
      simp only [updateFirstMemo, hh, if_false, ih i hi2 hm2 hf2, Option.map_some]
      rfl

theorem exists_first_match (l : List HistoricalTransaction) (id : TransactionId)
    (hex : ∃ h ∈ l, h.id = id) :
    ∃ i, ∃ hi : i < l.length, (l.get ⟨i, hi⟩).id = id ∧
      ∀ j, ∀ hj : j < i, (l.get ⟨j, lt_trans hj hi⟩).id ≠ id := by
  induction l with
  | nil => simp at hex
  | cons h t ih =>
    by_cases hh : h.id = id
    · exact ⟨0, Nat.succ_pos t.length, hh, fun j hj => absurd hj (Nat.not_lt_zero j)⟩
    · have hex2 : ∃ h2 ∈ t, h2.id = id := by
        rcases hex with ⟨h2, hmem, hid2⟩
        rcases List.mem_cons.mp hmem with he | he
        · exact absurd (he ▸ hid2) hh
        · exact ⟨h2, he, hid2⟩
      obtain ⟨i, hi, hm, hf⟩ := ih hex2
      refine ⟨i + 1, Nat.succ_lt_succ hi, hm, ?_⟩
      intro j hj
      cases j with
      | zero => exact hh
      | succ j => exact hf j (Nat.lt_of_succ_lt_succ hj)

/-- Claim C7: update_memo fails with NotFound when the account has no history;
fails with NotFound when no historical entry matches the id by full equality;
and on a (first) match replaces exactly the memo of that entry with the new memo
(clearing it when absent), never touching the current map. -/
theorem claim_C7_update_memo (s : TransactionStore) (a : String)
    (id : TransactionId) (m : Option String) :
    (lookupA s.all a = none →
      update_transaction_memo s a id m = (.error accountNotFoundError, s)) ∧
    (∀ l, lookupA s.all a = some l → (∀ h ∈ l, h.id ≠ id) →
      update_transaction_memo s a id m = (.error transactionNotFoundError, s)) ∧
    (∀ l, lookupA s.all a = some l →
      ∀ i, ∀ hi : i < l.length, (l.get ⟨i, hi⟩).id = id →
      (∀ j, ∀ hj : j < i, (l.get ⟨j, lt_trans hj hi⟩).id ≠ id) →
      update_transaction_memo s a id m =
        (.ok (),
          { current := s.current,
            all := insertA s.all a
              (l.set i { l.get ⟨i, hi⟩ with memo := m }) })) := by
  refine ⟨?_, ?_, ?_⟩
  · intro hnone
    exact update_memo_of_no_account s a id m hnone
  · intro l hl hno
    rw [update_memo_of_account s a id m l hl,
      (updateFirstMemo_eq_none_iff l id m).mpr hno]
  · intro l hl i hi hmatch hfirst
    rw [update_memo_of_account s a id m l hl,
      updateFirstMemo_of_first l id m i hi hmatch hfirst]

/-- Witness for claim C7: the three outcomes at concrete stores. -/
theorem claim_C7_witness :
    update_transaction_memo TransactionStore.new "acct" wId (some "x") =
      (.error accountNotFoundError, TransactionStore.new) ∧
    update_transaction_memo c7Store "acct" c7Id2 (some "x") =
      (.error transactionNotFoundError, c7Store) ∧
    update_transaction_memo c7Store "acct" wId (some "x") =
      (.ok (),
        { current := c7Store.current,
          all := insertA c7Store.all "acct"
            ([⟨"acct", wId, none⟩].set 0
              { [(⟨"acct", wId, none⟩ : HistoricalTransaction)].get
                  ⟨0, Nat.succ_pos 0⟩ with memo := some "x" }) }) :=
  ⟨(claim_C7_update_memo TransactionStore.new "acct" wId (some "x")).1 rfl,
   (claim_C7_update_memo c7Store "acct" c7Id2 (some "x")).2.1
      [⟨"acct", wId, none⟩] rfl (by decide),
   (claim_C7_update_memo c7Store "acct" wId (some "x")).2.2
      [⟨"acct", wId, none⟩] rfl 0 (Nat.succ_pos 0) (by decide)
      (fun j hj => absurd hj (Nat.not_lt_zero j))⟩

/-- Claim C10: when the history of the account holds two or more entries with the
matching id, update_memo rewrites only the first matching entry in insertion
order; every other position of the history, matching or not, is unchanged. -/
theorem claim_C10_update_memo_first_only (s : TransactionStore) (a : String)
    (id : TransactionId) (m : Option String) (l : List HistoricalTransaction)
    (hl : lookupA s.all a = some l)
    (hdup : 2 ≤ (l.filter (fun h => decide (h.id = id))).length) :
    ∃ i, ∃ hi : i < l.length, (l.get ⟨i, hi⟩).id = id ∧
      (∀ j, ∀ hj : j < i, (l.get ⟨j, lt_trans hj hi⟩).id ≠ id) ∧
      update_transaction_memo s a id m =
        (.ok (),
          { current := s.current,
            all := insertA s.all a
              (l.set i { l.get ⟨i, hi⟩ with memo := m }) }) ∧
      (l.set i { l.get ⟨i, hi⟩ with memo := m })[i]? =
        some { l.get ⟨i, hi⟩ with memo := m } ∧
      ∀ j, j ≠ i → (l.set i { l.get ⟨i, hi⟩ with memo := m })[j]? = l[j]? := by
  have hex : ∃ h ∈ l, h.id = id := by
    have hne : l.filter (fun h => decide (h.id = id)) ≠ [] := by
      intro hnil
      rw [hnil] at hdup
      simp at hdup
    obtain ⟨h0, t0, ht0⟩ := List.exists_cons_of_ne_nil hne
    have hmem : h0 ∈ l.filter (fun h => decide (h.id = id)) := by
      rw [ht0]
      exact List.mem_cons_self _ _
    have := List.mem_filter.mp hmem
    exact ⟨h0, this.1, by simpa using this.2⟩
  obtain ⟨i, hi, hmatch, hfirst⟩ := exists_first_match l id hex
  refine ⟨i, hi, hmatch, hfirst, ?_, ?_, ?_⟩
  · rw [update_memo_of_account s a id m l hl,
      updateFirstMemo_of_first l id m i hi hmatch hfirst]
  · exact List.getElem?_set_eq_of_lt _ hi
  · intro j hj
    exact List.getElem?_set_ne (fun he => hj he.symm)

/-- Witness for claim C10 at a concrete history holding the same id twice. -/
theorem claim_C10_witness :
    ∃ i, ∃ hi : i < ([⟨"acct", wId, none⟩,
        ⟨"acct", wId, some "old"⟩] : List HistoricalTransaction).length,
      (([⟨"acct", wId, none⟩, ⟨"acct", wId, some "old"⟩] :
          List HistoricalTransaction).get ⟨i, hi⟩).id = wId ∧
      (∀ j, ∀ hj : j < i, (([⟨"acct", wId, none⟩, ⟨"acct", wId, some "old"⟩] :
          List HistoricalTransaction).get ⟨j, lt_trans hj hi⟩).id ≠ wId) ∧
      update_transaction_memo c10Store "acct" wId (some "new") =
        (.ok (),
          { current := c10Store.current,
            all := insertA c10Store.all "acct"
              (([⟨"acct", wId, none⟩, ⟨"acct", wId, some "old"⟩] :
                  List HistoricalTransaction).set i
              { ([⟨"acct", wId, none⟩, ⟨"acct", wId, some "old"⟩] :
                  List HistoricalTransaction).get ⟨i, hi⟩ with memo := some "new" }) }) ∧
      (([⟨"acct", wId, none⟩, ⟨"acct", wId, some "old"⟩] :
          List HistoricalTransaction).set i
        { ([⟨"acct", wId, none⟩, ⟨"acct", wId, some "old"⟩] :
            List HistoricalTransaction).get ⟨i, hi⟩ with memo := some "new" })[i]? =
        some { ([⟨"acct", wId, none⟩, ⟨"acct", wId, some "old"⟩] :
            List HistoricalTransaction).get ⟨i, hi⟩ with memo := some "new" } ∧
      ∀ j, j ≠ i → (([⟨"acct", wId, none⟩, ⟨"acct", wId, some "old"⟩] :
          List HistoricalTransaction).set i
        { ([⟨"acct", wId, none⟩, ⟨"acct", wId, some "old"⟩] :
            List HistoricalTransaction).get ⟨i, hi⟩ with memo := some "new" })[j]? =
        ([⟨"acct", wId, none⟩, ⟨"acct", wId, some "old"⟩] :
          List HistoricalTransaction)[j]? :=
  claim_C10_update_memo_first_only c10Store "acct" wId (some "new")
    [⟨"acct", wId, none⟩, ⟨"acct", wId, some "old"⟩] rfl (by decide)

theorem lookupA_insert_entry_ne {α β : Type} [DecidableEq α]
    (c : List (α × β)) (a x : α) (d v : β) (hxa : x ≠ a) :
    lookupA (insertA (entryOr c a d) a v) x = lookupA c x := by
  rw [lookupA_insertA, if_neg (fun h => hxa h.symm), lookupA_entryOr, if_neg hxa]

theorem lookupA_insert_entry_eq {α β : Type} [DecidableEq α]
    (c : List (α × β)) (a : α) (d v : β) :
    lookupA (insertA (entryOr c a d) a v) a = some v := by
  rw [lookupA_insertA, if_pos rfl]

theorem currentBucket_entryOr (s : TransactionStore) (a x : String) :
    currentBucket { s with current := entryOr s.current a [] } x =
      currentBucket s x := by
  unfold currentBucket
  rw [lookupA_entryOr]
  by_cases hxa : x = a
  · subst hxa
    simp
  · rw [if_neg hxa]

theorem mem_keys_foldl_insert (T : List ImportRecord)
    (b : List (TransactionId × CurrentTransaction)) (k : TransactionId)
    (h : k ∈ (T.foldl (fun acc r => insertA acc r.1 r.2.1) b).map Prod.fst) :
    k ∈ b.map Prod.fst ∨ ∃ r ∈ T, r.1 = k := by
  induction T generalizing b with
  | nil => exact .inl h
  | cons r0 t ih =>
    rcases ih (insertA b r0.1 r0.2.1) h with h2 | ⟨r, hr, hrk⟩
    · rcases mem_keys_insertA h2 with h3 | h3
      · exact .inr ⟨r0, List.mem_cons_self r0 t, h3.symm⟩
      · exact .inl h3
    · exact .inr ⟨r, List.mem_cons_of_mem r0 hr, hrk⟩

theorem updateFirstMemo_ids (l : List HistoricalTransaction) (id : TransactionId)
    (m : Option String) (l2 : List HistoricalTransaction)
    (h : updateFirstMemo l id m = some l2) :
    l2.map (fun x => x.id) = l.map (fun x => x.id) := by
  induction l generalizing l2 with
  | nil => simp [updateFirstMemo] at h
  | cons hd t ih =>
    simp only [updateFirstMemo] at h
    by_cases hh : hd.id = id
    · rw [if_pos hh] at h
      obtain rfl := Option.some_inj.mp h
      rfl
    · rw [if_neg hh] at h
      cases hu : updateFirstMemo t id m with
      | none =>
        rw [hu] at h
        exact absurd h (by simp)
      | some t2 =>
        rw [hu] at h
        obtain rfl := Option.some_inj.mp (by simpa using h)
        rw [List.map_cons, List.map_cons, ih t2 hu]

/-- bulkImportCore on an empty batch only materialises the buckets of the account. -/
theorem bulkImportCore_nil (s : TransactionStore) (a : String) :
    bulkImportCore s a [] =
      (0, { current := insertA (entryOr s.current a []) a (currentBucket s a),
            all := insertA (entryOr s.all a []) a (allBucket s a) }) := by
  unfold bulkImportCore
  simp only [dateRange, List.foldl_nil, List.map_nil, List.append_nil,
    entryOr_bucket]
  rfl

theorem keysInAll_create (s : TransactionStore) (a : String) (id : TransactionId)
    (ih : keysInAll s) : keysInAll (create_transaction s a id).2 := by
  by_cases hc : containsA (currentBucket s a) id = true
  · -- conflict branch: only the empty bucket materialisation happens
    have hc2 : containsA ((lookupA (entryOr s.current a []) a).getD []) id = true := by
      rw [entryOr_bucket]
      exact hc
    have hs2 : (create_transaction s a id).2 =
        { s with current := entryOr s.current a [] } := by
      unfold create_transaction
      simp only [hc2, if_true]
    intro x k hk
    rw [hs2] at hk ⊢
    rw [currentBucket_entryOr] at hk
    exact ih x k hk
  · have hc2 : containsA (currentBucket s a) id = false :=
      Bool.eq_false_iff.mpr hc
    rw [create_success_unfold s a id hc2]
    intro x k hk
    by_cases hxa : x = a
    · rw [hxa] at hk ⊢
      unfold currentBucket at hk
      rw [lookupA_insert_entry_eq] at hk
      unfold allBucket
      rw [lookupA_insert_entry_eq]
      simp only [Option.getD_some, List.map_append] at hk ⊢
      rcases List.mem_append.mp hk with h2 | h2
      · exact List.mem_append.mpr (.inl (ih a k h2))
      · simp at h2
        subst h2
        exact List.mem_append.mpr (.inr (by simp))
    · unfold currentBucket at hk
      unfold allBucket
      rw [lookupA_insert_entry_ne _ _ _ _ _ hxa] at hk
      rw [lookupA_insert_entry_ne _ _ _ _ _ hxa]
      exact ih x k hk

theorem keysInAll_bulk (s : TransactionStore) (a : String)
    (results : List ParseResult) (ih : keysInAll s) :
    keysInAll (bulk_import_handler s a results).2 := by
  by_cases hne : successesOf results = []
  · -- no parsed rows: either rejected outright or only buckets materialise
    by_cases herr : errorsOf results = []
    · have hT : (successesOf results).map (process_csv_transaction a) = [] := by
        rw [hne, List.map_nil]
      have hs2 : (bulk_import_handler s a results).2 =
          { current := insertA (entryOr s.current a []) a (currentBucket s a),
            all := insertA (entryOr s.all a []) a (allBucket s a) } := by
        unfold bulk_import_handler
        rw [hT, herr]
        simp only [List.isEmpty_nil, Bool.not_true, Bool.and_false,
          Bool.false_eq_true, if_false, bulkImportCore_nil]
      rw [hs2]
      intro x k hk
      by_cases hxa : x = a
      · rw [hxa] at hk ⊢
        unfold currentBucket at hk
        rw [lookupA_insert_entry_eq] at hk
        unfold allBucket
        rw [lookupA_insert_entry_eq]
        exact ih a k hk
      · unfold currentBucket at hk
        unfold allBucket
        rw [lookupA_insert_entry_ne _ _ _ _ _ hxa] at hk
        rw [lookupA_insert_entry_ne _ _ _ _ _ hxa]
        exact ih x k hk
    · have hs2 : (bulk_import_handler s a results).2 = s := by
        unfold bulk_import_handler
        have hT : (successesOf results).map (process_csv_transaction a) = [] := by
          rw [hne, List.map_nil]
        obtain ⟨e, t, het⟩ := List.exists_cons_of_ne_nil herr
        rw [hT, het]
        simp
      rw [hs2]
      exact ih
  · obtain ⟨id0, S2, hS⟩ := List.exists_cons_of_ne_nil hne
    have hmapS : (successesOf results).map (process_csv_transaction a) =
        process_csv_transaction a id0 :: S2.map (process_csv_transaction a) := by
      rw [hS, List.map_cons]
    have hdr : dateRange ((successesOf results).map (process_csv_transaction a)) =
        (some ((S2.map (process_csv_transaction a)).foldl
            (fun m r => min m r.1.timestamp) id0.timestamp),
         some ((S2.map (process_csv_transaction a)).foldl
            (fun m r => max m r.1.timestamp) id0.timestamp)) := by
      rw [hmapS, dateRange_cons]
      rfl
    rw [bulk_import_handler_of_ne s a results hne,
      bulkImportCore_unfold s a _ _ _ hdr]
    intro x k hk
    by_cases hxa : x = a
    · rw [hxa] at hk ⊢
      unfold currentBucket at hk
      rw [lookupA_insert_entry_eq] at hk
      unfold allBucket
      rw [lookupA_insert_entry_eq]
      simp only [Option.getD_some] at hk ⊢
      rcases mem_keys_foldl_insert _ _ _ hk with h2 | ⟨r, hr, hrk⟩
      · -- keys surviving the range eviction were already present
        have h3 : k ∈ (currentBucket s a).map Prod.fst := by
          obtain ⟨p, hp, hpk⟩ := List.mem_map.mp h2
          exact List.mem_map.mpr ⟨p, (List.mem_filter.mp hp).1, hpk⟩
        have h4 := ih a k h3
        rw [List.map_append]
        exact List.mem_append.mpr (.inl h4)
      · -- freshly imported keys have a matching appended history record
        obtain ⟨idr, hidr, hre⟩ := List.mem_map.mp hr
        rw [List.map_append]
        refine List.mem_append.mpr (.inr ?_)
        rw [List.map_map]
        refine List.mem_map.mpr ⟨r, hr, ?_⟩
        subst hre
        simpa [process_csv_transaction] using hrk
    · unfold currentBucket at hk
      unfold allBucket
      rw [lookupA_insert_entry_ne _ _ _ _ _ hxa] at hk
      rw [lookupA_insert_entry_ne _ _ _ _ _ hxa]
      exact ih x k hk

theorem keysInAll_memo (s : TransactionStore) (a : String) (id : TransactionId)
    (m : Option String) (ih : keysInAll s) :
    keysInAll (update_transaction_memo s a id m).2 := by
  cases hl : lookupA s.all a with
  | none =>
    have hs2 : (update_transaction_memo s a id m).2 = s := by
      rw [update_memo_of_no_account s a id m hl]
    rw [hs2]
    exact ih
  | some l =>
    cases hu : updateFirstMemo l id m with
    | none =>
      have hs2 : (update_transaction_memo s a id m).2 = s := by
        rw [update_memo_of_account s a id m l hl, hu]
      rw [hs2]
      exact ih
    | some l2 =>
      have hs2 : (update_transaction_memo s a id m).2 =
          { s with all := insertA s.all a l2 } := by
        rw [update_memo_of_account s a id m l hl, hu]
      rw [hs2]
      intro x k hk
      have h4 := ih x k hk
      by_cases hxa : x = a
      · rw [hxa] at h4 ⊢
        unfold allBucket at h4 ⊢
        rw [lookupA_insertA, if_pos rfl]
        rw [hl] at h4
        simp only [Option.getD_some] at h4 ⊢
        rw [updateFirstMemo_ids l id m l2 hu]
        exact h4
      · unfold allBucket at h4 ⊢
        rw [lookupA_insertA, if_neg (fun h => hxa h.symm)]
        exact h4

/-- Claim C4 (amended): in every store state reachable from the empty state by
create, bulk_import and update_memo operations, every TransactionId keyed in
current[account] also occurs among the ids of all[account] (at least once). -/
theorem claim_C4_current_ids_in_all (s : TransactionStore) (hr : Reach s) :
    keysInAll s := by
  induction hr with
  | empty =>
    intro a id hid
    simp [currentBucket, TransactionStore.new, lookupA] at hid
  | step hr hstep ih =>
    cases hstep with
    | create a id => exact keysInAll_create _ a id ih
    | bulk a results => exact keysInAll_bulk _ a results ih
    | memo a id m => exact keysInAll_memo _ a id m ih

/-- Witness for claim C4 at a concrete reachable state (one create). -/
theorem claim_C4_witness :
    wId ∈ (allBucket (create_transaction TransactionStore.new "acct" wId).2
      "acct").map (fun h => h.id) :=
  claim_C4_current_ids_in_all _
    (Reach.step Reach.empty (Step.create TransactionStore.new "acct" wId)) "acct"
    wId (by decide)

/-- Counterexample to claim C4 as stated: importing the same row twice in one
batch yields a reachable state in which the id is keyed in current but occurs
twice (not exactly once) in the history of the account. -/
theorem claim_C4_counterexample :
    Reach c4Dup ∧
    wId ∈ (currentBucket c4Dup "acct").map Prod.fst ∧
    ((allBucket c4Dup "acct").filter (fun h => decide (h.id = wId))).length = 2 :=
  ⟨Reach.step Reach.empty
      (Step.bulk TransactionStore.new "acct" [.ok wId, .ok wId]),
   by decide, by decide⟩

/-- Validation of the double model against exact IEEE-754 binary64 values:
the double nearest to 1.005 is 4526117625507348 * 2 ^ -52 and its rounded
product with 100.0 is 7072058789855231 * 2 ^ -46 (which is just below 100.5);
the double nearest to 10.005 is 5632314283980227 * 2 ^ -49 and its rounded
product with 100.0 is 8800491068719105 * 2 ^ -43 (just above 1000.5). -/
theorem doubleOfDec_validation :
    doubleOfDec 1005 3 = ⟨4526117625507348, -52⟩ ∧
    mul100 (doubleOfDec 1005 3) = ⟨7072058789855231, -46⟩ ∧
    doubleOfDec 10005 3 = ⟨5632314283980227, -49⟩ ∧
    mul100 (doubleOfDec 10005 3) = ⟨8800491068719105, -43⟩ := by
  refine ⟨by decide, by decide, by decide, by decide⟩

/-- Claim C5 (amended): amount_cents is the ties-away-from-zero rounding of the
double-precision product `amount * 100.0`, where `amount` is the double nearest
to the decimal input. The documented values are 10.005 -> 1001 cents and
10.004999 -> 1000 cents (both agreeing with exact decimal rounding), but the
double product may fall below the exact decimal value, so the result can
differ from rounding the decimal amount: 1.005 -> 100 cents while the decimal
rule gives 101. -/
theorem claim_C5_amount_rounding :
    derive_amount_cents 10005 3 = 1001 ∧
    derive_amount_cents 10004999 6 = 1000 ∧
    spec_round_cents 10005 3 = 1001 ∧
    spec_round_cents 10004999 6 = 1000 ∧
    derive_amount_cents 1005 3 = 100 ∧
    spec_round_cents 1005 3 = 101 := by
  refine ⟨by decide, by decide, by decide, by decide, by decide, by decide⟩

/-- Counterexample to claim C5 as stated: for the accepted amount 1.005 the
derived cents of the code differ from rounding the decimal amount to cents with
ties away from zero (100 versus 101). -/
theorem claim_C5_counterexample :
    derive_amount_cents 1005 3 ≠ spec_round_cents 1005 3 := by decide

/-- Claim C8 (code bug): save_to_files cannot serialize any store holding a
transaction — serde_json rejects TransactionId as a JSON object key — so no
current-transactions file is written (the error is swallowed as a warning) and
a fresh load cannot reproduce the state. Evaluated at the failing input: the
store produced by one successful create. -/
theorem claim_C8_save_fails :
    serialize_current
      (create_transaction TransactionStore.new "acct" wId).2.current =
      .error "key must be a string" := by rfl

/-- Any store whose current map holds at least one transaction fails to
serialize, with the serde_json map-key error. -/
theorem serialize_current_fails_of_nonempty
    (current : List (String × List (TransactionId × CurrentTransaction)))
    (p : String × List (TransactionId × CurrentTransaction))
    (hp : p ∈ current) (hne : p.2 ≠ []) :
    serialize_current current = .error "key must be a string" := by
  induction current with
  | nil => cases hp
  | cons q t ih =>
    obtain ⟨qa, qb⟩ := q
    rcases List.mem_cons.mp hp with h | h
    · obtain ⟨pair, b2, hb⟩ := List.exists_cons_of_ne_nil (h ▸ hne)
      have hqb : qb = pair :: b2 := hb
      subst hqb
      rfl
    · cases hqb : qb with
      | nil => exact ih h
      | cons pair b2 => rfl

end Wdmmg
